import Mathlib

/-!
Verification of the nissan350z-scout listing-scout repository.

The Python sources are shallowly embedded:
* Python strings are `List Char` (sequences of Unicode code points); a few
  definitions take `String` and convert via `String.toList`.
* Python floats are modelled as exact rationals `ℚ`; `None` is `Option.none`.
* Python `set` objects are modelled as lists with membership semantics
  (`List.contains`); `set.add` is modelled by consing.
* Fallible Python code (functions that catch exceptions and return `None`)
  returns `Option`; code whose exceptions propagate returns `Except`.
-/

/-! ### Generic character/string helpers shared by several modules -/

/-- Convert a Lean string literal to the `List Char` representation used
throughout this development. -/
def toL (s : String) : List Char := s.toList

/-- Python `str.strip()` whitespace class (the ASCII part, which is all the
repository's inputs exercise): space, tab, newline, carriage return,
vertical tab, form feed. -/
def isPySpace (c : Char) : Bool :=
  c = ' ' || c = '\t' || c = '\n' || c = '\r' || c = '\x0b' || c = '\x0c'

/-- Python `str.lower()` restricted to the alphabet the repository's keyword
sets exercise: ASCII letters plus the Polish diacritics. -/
def lowerPL (c : Char) : Char :=
  if 'A' ≤ c ∧ c ≤ 'Z' then Char.ofNat (c.toNat + 32)
  else if c = 'Ą' then 'ą' else if c = 'Ć' then 'ć' else if c = 'Ę' then 'ę'
  else if c = 'Ł' then 'ł' else if c = 'Ń' then 'ń' else if c = 'Ó' then 'ó'
  else if c = 'Ś' then 'ś' else if c = 'Ź' then 'ź' else if c = 'Ż' then 'ż'
  else c

/-- Python `str.lower()` on a whole string. -/
def pyLower (l : List Char) : List Char := l.map lowerPL

/-- Python `str.strip()`: drop leading and trailing whitespace. -/
def pyStrip (l : List Char) : List Char :=
  ((l.dropWhile isPySpace).reverse.dropWhile isPySpace).reverse

/-- The non-breaking space character `" "` removed by the price parsers. -/
def nbspChar : Char := '\u00A0'

/-! ### utils.py / agent.py: the offer evaluator `ocena` -/

/-- `MAX_EUR = 11000` from `utils.py` / `agent.py`. -/
def MAX_EUR : ℚ := 11000

/-- `BAD_WORDS` from `utils.py` / `agent.py`. -/
def BAD_WORDS : List (List Char) :=
  [toL "swap", toL "projekt", toL "brak", toL "uszkodz", toL "na części",
   toL "bez dokument", toL "drift"]

/-- Python's substring operator `needle in hay`. -/
def strContains (hay needle : List Char) : Bool :=
  match hay with
  | [] => needle.isEmpty
  | _ :: t => needle.isPrefixOf hay || strContains t needle

/-- `agent.is_bad` / the inline `any(w in title.lower() for w in BAD_WORDS)`
check of `utils.ocena`: some bad word is a substring of the lowercased text.
A `None` title is modelled by the empty list (then no word matches, as in
Python where `None` is replaced by `""`). -/
def is_bad (text : List Char) : Bool :=
  BAD_WORDS.any (fun w => strContains (pyLower text) w)

/-- `utils.ocena` / `agent.ocena`: the offer evaluator.  `MAX_EUR * 0.9`
is modelled as the exact rational `MAX_EUR * (9 / 10)`. -/
def ocena (cena_eur : Option ℚ) (title : List Char) : String :=
  if is_bad title then "⚠️ RYZYKO"
  else
    match cena_eur with
    | none => "❓ NIEZNANA"
    | some c =>
      if c ≤ MAX_EUR * (9 / 10) then "✅ OKAZJA"
      else if c ≤ MAX_EUR then "ℹ️ DO SPRAWDZENIA"
      else "❌ POZA BUDŻETEM"

/-! ### bot_olx.py: the four-key dedup store -/

/-- The OLX dedup store `{"ids": …, "urls": …, "url_sigs": …, "sigs": …}`;
each Python `set` of strings is modelled as a list with membership
semantics. -/
structure SentStore where
  ids : List String
  urls : List String
  url_sigs : List String
  sigs : List String

/-- `bot_olx.is_already_sent`.  The Python guard `numeric_id and …` is
truthiness: `None` and `""` both skip the id lookup. -/
def is_already_sent (store : SentStore) (numeric_id : Option String)
    (canonical_url url_sig sig : String) : Bool :=
  (match numeric_id with
   | none => false
   | some i => !(i == "") && store.ids.contains i)
  || store.urls.contains canonical_url
  || store.url_sigs.contains url_sig
  || store.sigs.contains sig

/-- `bot_olx.mark_as_sent`: insert each key; the numeric id only when truthy. -/
def mark_as_sent (store : SentStore) (numeric_id : Option String)
    (canonical_url url_sig sig : String) : SentStore :=
  let st :=
    match numeric_id with
    | none => store
    | some i => if i == "" then store else { store with ids := i :: store.ids }
  { st with
    urls := canonical_url :: st.urls
    url_sigs := url_sig :: st.url_sigs
    sigs := sig :: st.sigs }

/-! ### bot_olx.py / bot_otomoto.py: URL canonicalization -/

/-- The `".html"` suffix stripped by `bot_olx.canonicalize_url`. -/
def htmlSuffix : List Char := toL ".html"

/-- The intermediate `u` of `bot_olx.canonicalize_url`:
`url.split("#")[0].split("?")[0].rstrip("/")`. -/
def urlBase (url : List Char) : List Char :=
  (((url.takeWhile (fun c => !(c == '#'))).takeWhile
      (fun c => !(c == '?'))).reverse.dropWhile (fun c => c == '/')).reverse

/-- `bot_olx.canonicalize_url`: strip fragment, query and trailing slashes,
then strip one trailing `".html"`.  (`bot_otomoto.canonicalize_url` is
`urlBase` alone, without the `".html"` rule.) -/
def canonicalize_url (url : List Char) : List Char :=
  if htmlSuffix.isSuffixOf (urlBase url) then (urlBase url).take ((urlBase url).length - 5)
  else urlBase url

/-! ### bot_olx.py / bot_otomoto.py: locale number parsing -/

/-- Decimal value of a digit list (most significant first). -/
def digitsToNat (l : List Char) : Nat :=
  l.foldl (fun a c => a * 10 + (c.toNat - 48)) 0

/-- Python `float(t)` for a string containing only ASCII digits and dots
(all that can reach it in `to_number_pl`): at most one dot and at least one
digit, value `intpart.fracpart`.  The result is the exact rational value. -/
def pyFloat (l : List Char) : Option ℚ :=
  if 2 ≤ l.count '.' then none
  else
    let ip := l.takeWhile (fun c => !(c == '.'))
    let fp := (l.dropWhile (fun c => !(c == '.'))).drop 1
    if !((ip ++ fp).all Char.isDigit) then none
    else if ip.isEmpty && fp.isEmpty then none
    else some ((digitsToNat ip : ℚ) + (digitsToNat fp : ℚ) / (10 : ℚ) ^ fp.length)

/-- The sanitation pipeline of `bot_olx.to_number_pl`:
`strip()`, remove `" "` and `" "`, remove `"."`, map `","` to `"."`,
then `re.sub(r"[^0-9.]", "", …)`. -/
def sanitized (l : List Char) : List Char :=
  (((((pyStrip l).filter (fun c => !(c == ' '))).filter
        (fun c => !(c == nbspChar))).filter (fun c => !(c == '.'))).map
      (fun c => if c == ',' then '.' else c)).filter (fun c => c.isDigit || c == '.')

/-- `bot_olx.to_number_pl` (the `bot_otomoto` copy differs only in not
calling `strip()` first, which the shared pipeline makes irrelevant to the
result). -/
def to_number_pl (l : List Char) : Option ℚ :=
  if l.isEmpty then none
  else if (sanitized l).isEmpty then none
  else pyFloat (sanitized l)

/-! ### SHA-256 (hashlib.sha256), needed by `sha_sig` in both bots.
Words are `Nat` values reduced modulo `2^32`. -/

/-- Truncate to 32 bits. -/
def w32 (n : Nat) : Nat := n % 4294967296

/-- Rotate a 32-bit word right by `k` (for `0 < k < 32`). -/
def rotr32 (x k : Nat) : Nat := w32 (x / 2 ^ k + x % 2 ^ k * 2 ^ (32 - k))

/-- UTF-8 encoding of a character list (Python `str.encode("utf-8")`). -/
def utf8Encode (l : List Char) : List Nat :=
  l.foldr (fun c acc =>
    let n := c.toNat
    (if n < 128 then [n]
     else if n < 2048 then [192 + n / 64, 128 + n % 64]
     else if n < 65536 then [224 + n / 4096, 128 + n / 64 % 64, 128 + n % 64]
     else [240 + n / 262144, 128 + n / 4096 % 64, 128 + n / 64 % 64, 128 + n % 64]) ++ acc) []

/-- Number of zero bytes between the `0x80` marker and the 8-byte length so
that the padded message length is a multiple of 64. -/
def padZeros (len : Nat) : Nat := (120 - (len + 1) % 64) % 64

/-- The length field of SHA-256 padding: bit length as 8 big-endian bytes. -/
def lenBytesBE (n : Nat) : List Nat :=
  [n / 2 ^ 56 % 256, n / 2 ^ 48 % 256, n / 2 ^ 40 % 256, n / 2 ^ 32 % 256,
   n / 2 ^ 24 % 256, n / 2 ^ 16 % 256, n / 2 ^ 8 % 256, n % 256]

/-- SHA-256 message padding. -/
def shaPad (m : List Nat) : List Nat :=
  m ++ 128 :: List.replicate (padZeros m.length) 0 ++ lenBytesBE (8 * m.length)

/-- Split a byte list into 64-byte blocks (fuel-driven so that the kernel
can evaluate it; one unit of fuel per block suffices since every step
consumes 64 bytes, so `l.length` units never run out). -/
def chunks64Aux : Nat → List Nat → List (List Nat)
  | _, [] => []
  | 0, _ => []
  | fuel + 1, l => l.take 64 :: chunks64Aux fuel (l.drop 64)

/-- Split a byte list into 64-byte blocks. -/
def chunks64 (l : List Nat) : List (List Nat) := chunks64Aux l.length l

/-- Big-endian 32-bit words from a byte list. -/
def beWords : List Nat → List Nat
  | b0 :: b1 :: b2 :: b3 :: rest =>
    (((b0 * 256 + b1) * 256 + b2) * 256 + b3) :: beWords rest
  | _ => []

/-- SHA-256 small sigma 0. -/
def ssig0 (x : Nat) : Nat := rotr32 x 7 ^^^ rotr32 x 18 ^^^ x / 2 ^ 3

/-- SHA-256 small sigma 1. -/
def ssig1 (x : Nat) : Nat := rotr32 x 17 ^^^ rotr32 x 19 ^^^ x / 2 ^ 10

/-- Extend 16 schedule words to 64. -/
def extendW (w : List Nat) : List Nat :=
  (List.range 48).foldl (fun acc _ =>
    acc ++ [w32 (acc.getD (acc.length - 16) 0 + ssig0 (acc.getD (acc.length - 15) 0)
      + acc.getD (acc.length - 7) 0 + ssig1 (acc.getD (acc.length - 2) 0))]) w

/-- The eight working variables of SHA-256. -/
structure H8 where
  a : Nat
  b : Nat
  c : Nat
  d : Nat
  e : Nat
  f : Nat
  g : Nat
  h : Nat

/-- SHA-256 initial hash value. -/
def initH : H8 :=
  ⟨1779033703, 3144134277, 1013904242, 2773480762,
   1359893119, 2600822924, 528734635, 1541459225⟩

/-- SHA-256 round constants. -/
def K256 : List Nat :=
  [1116352408, 1899447441, 3049323471, 3921009573, 961987163, 1508970993,
  2453635748, 2870763221, 3624381080, 310598401, 607225278, 1426881987,
  1925078388, 2162078206, 2614888103, 3248222580, 3835390401, 4022224774,
  264347078, 604807628, 770255983, 1249150122, 1555081692, 1996064986,
  2554220882, 2821834349, 2952996808, 3210313671, 3336571891, 3584528711,
  113926993, 338241895, 666307205, 773529912, 1294757372, 1396182291,
  1695183700, 1986661051, 2177026350, 2456956037, 2730485921, 2820302411,
  3259730800, 3345764771, 3516065817, 3600352804, 4094571909, 275423344,
  430227734, 506948616, 659060556, 883997877, 958139571, 1322822218,
  1537002063, 1747873779, 1955562222, 2024104815, 2227730452, 2361852424,
  2428436474, 2756734187, 3204031479, 3329325298]

/-- One SHA-256 compression round. -/
def shaRound (st : H8) (kw : Nat × Nat) : H8 :=
  let s1 := rotr32 st.e 6 ^^^ rotr32 st.e 11 ^^^ rotr32 st.e 25
  let ch := st.e &&& st.f ^^^ (st.e ^^^ 4294967295) &&& st.g
  let t1 := w32 (st.h + s1 + ch + kw.1 + kw.2)
  let s0 := rotr32 st.a 2 ^^^ rotr32 st.a 13 ^^^ rotr32 st.a 22
  let mj := st.a &&& st.b ^^^ st.a &&& st.c ^^^ st.b &&& st.c
  let t2 := w32 (s0 + mj)
  ⟨w32 (t1 + t2), st.a, st.b, st.c, w32 (st.d + t1), st.e, st.f, st.g⟩

/-- Compress one 64-byte block into the running hash state. -/
def compressBlock (st : H8) (blk : List Nat) : H8 :=
  let ws := extendW (beWords blk)
  let fin := (K256.zip ws).foldl shaRound st
  ⟨w32 (st.a + fin.a), w32 (st.b + fin.b), w32 (st.c + fin.c), w32 (st.d + fin.d),
   w32 (st.e + fin.e), w32 (st.f + fin.f), w32 (st.g + fin.g), w32 (st.h + fin.h)⟩

/-- Big-endian bytes of a 32-bit word. -/
def be4 (x : Nat) : List Nat :=
  [x / 2 ^ 24 % 256, x / 2 ^ 16 % 256, x / 2 ^ 8 % 256, x % 256]

/-- SHA-256 digest (32 bytes) of a byte message. -/
def sha256bytes (m : List Nat) : List Nat :=
  let st := (chunks64 (shaPad m)).foldl compressBlock initH
  be4 st.a ++ be4 st.b ++ be4 st.c ++ be4 st.d
    ++ be4 st.e ++ be4 st.f ++ be4 st.g ++ be4 st.h

/-- Lowercase hexadecimal alphabet. -/
def hexChars : List Char := toL "0123456789abcdef"

/-- Two hex characters of one byte. -/
def byteHex (b : Nat) : List Char := [hexChars.getD (b / 16) '0', hexChars.getD (b % 16) '0']

/-- Hex digest string of a byte list (Python `hexdigest()`). -/
def hexOfBytes (bs : List Nat) : List Char := (bs.map byteHex).join

/-- `bot_olx.sha_sig` / `bot_otomoto.sha_sig`:
`hashlib.sha256(s.encode("utf-8")).hexdigest()[:20]`. -/
def sha_sig (s : List Char) : List Char := (hexOfBytes (sha256bytes (utf8Encode s))).take 20

/-! ### MD5 (hashlib.md5), needed by `utils.hash_id` / `agent.hash_id` -/

/-- Rotate a 32-bit word left by `k` (for `0 < k < 32`). -/
def rotl32 (x k : Nat) : Nat := rotr32 x (32 - k)

/-- The length field of MD5 padding: bit length as 8 little-endian bytes. -/
def lenBytesLE (n : Nat) : List Nat :=
  [n % 256, n / 2 ^ 8 % 256, n / 2 ^ 16 % 256, n / 2 ^ 24 % 256,
   n / 2 ^ 32 % 256, n / 2 ^ 40 % 256, n / 2 ^ 48 % 256, n / 2 ^ 56 % 256]

/-- MD5 message padding (same zero count as SHA-256, little-endian length). -/
def md5Pad (m : List Nat) : List Nat :=
  m ++ 128 :: List.replicate (padZeros m.length) 0 ++ lenBytesLE (8 * m.length)

/-- Little-endian 32-bit words from a byte list. -/
def leWords : List Nat → List Nat
  | b0 :: b1 :: b2 :: b3 :: rest =>
    (b0 + b1 * 256 + b2 * 65536 + b3 * 16777216) :: leWords rest
  | _ => []

/-- MD5 sine-derived round constants. -/
def Kmd5 : List Nat :=
  [3614090360, 3905402710, 606105819, 3250441966, 4118548399, 1200080426,
  2821735955, 4249261313, 1770035416, 2336552879, 4294925233, 2304563134,
  1804603682, 4254626195, 2792965006, 1236535329, 4129170786, 3225465664,
  643717713, 3921069994, 3593408605, 38016083, 3634488961, 3889429448,
  568446438, 3275163606, 4107603335, 1163531501, 2850285829, 4243563512,
  1735328473, 2368359562, 4294588738, 2272392833, 1839030562, 4259657740,
  2763975236, 1272893353, 4139469664, 3200236656, 681279174, 3936430074,
  3572445317, 76029189, 3654602809, 3873151461, 530742520, 3299628645,
  4096336452, 1126891415, 2878612391, 4237533241, 1700485571, 2399980690,
  4293915773, 2240044497, 1873313359, 4264355552, 2734768916, 1309151649,
  4149444226, 3174756917, 718787259, 3951481745]

/-- MD5 per-round left-rotation amounts. -/
def Smd5 : List Nat :=
  [7, 12, 17, 22, 7, 12, 17, 22, 7, 12, 17, 22, 7, 12, 17, 22,
   5, 9, 14, 20, 5, 9, 14, 20, 5, 9, 14, 20, 5, 9, 14, 20,
   4, 11, 16, 23, 4, 11, 16, 23, 4, 11, 16, 23, 4, 11, 16, 23,
   6, 10, 15, 21, 6, 10, 15, 21, 6, 10, 15, 21, 6, 10, 15, 21]

/-- The four working variables of MD5. -/
structure M4 where
  a : Nat
  b : Nat
  c : Nat
  d : Nat

/-- MD5 round mixing function (round selected by the step index). -/
def md5F (i b c d : Nat) : Nat :=
  if i < 16 then b &&& c ||| (b ^^^ 4294967295) &&& d
  else if i < 32 then d &&& b ||| (d ^^^ 4294967295) &&& c
  else if i < 48 then b ^^^ c ^^^ d
  else c ^^^ (b ||| (d ^^^ 4294967295))

/-- MD5 message-word index for a step. -/
def md5G (i : Nat) : Nat :=
  if i < 16 then i
  else if i < 32 then (5 * i + 1) % 16
  else if i < 48 then (3 * i + 5) % 16
  else 7 * i % 16

/-- One MD5 step. -/
def md5Step (m : List Nat) (st : M4) (i : Nat) : M4 :=
  let f := w32 (md5F i st.b st.c st.d + st.a + Kmd5.getD i 0 + m.getD (md5G i) 0)
  ⟨st.d, w32 (st.b + rotl32 f (Smd5.getD i 0)), st.b, st.c⟩

/-- Compress one 64-byte block into the running MD5 state. -/
def md5Block (st : M4) (blk : List Nat) : M4 :=
  let m := leWords blk
  let fin := (List.range 64).foldl (md5Step m) st
  ⟨w32 (st.a + fin.a), w32 (st.b + fin.b), w32 (st.c + fin.c), w32 (st.d + fin.d)⟩

/-- Little-endian bytes of a 32-bit word. -/
def le4 (x : Nat) : List Nat :=
  [x % 256, x / 2 ^ 8 % 256, x / 2 ^ 16 % 256, x / 2 ^ 24 % 256]

/-- MD5 digest (16 bytes) of a byte message. -/
def md5bytes (m : List Nat) : List Nat :=
  let st := (chunks64 (md5Pad m)).foldl md5Block
    ⟨1732584193, 4023233417, 2562383102, 271733878⟩
  le4 st.a ++ le4 st.b ++ le4 st.c ++ le4 st.d

/-- `utils.hash_id` / `agent.hash_id`: `hashlib.md5(text.encode()).hexdigest()`. -/
def hash_id (text : String) : String :=
  (hexOfBytes (md5bytes (utf8Encode text.toList))).asString

/-! ### agent.py: one RSS item of `olx_rss` (also `otomoto_rss`) -/

/-- One iteration of the `agent.olx_rss` item loop for a link: compute
`uid = hash_id(link)`; skip if `uid in seen`; otherwise `seen.add(uid)` and
then call `safe_send`, which catches transport failures and only prints.
`sendOk` is the delivery outcome; the returned Bool is whether the message
was actually delivered.  Note the uid is recorded *before* the send and
regardless of its outcome. -/
def stepAgentOlx (seen : List String) (link : String) (sendOk : Bool) :
    List String × Bool :=
  let uid := hash_id link
  if seen.contains uid then (seen, false)
  else (uid :: seen, sendOk)

/-! ### bot_olx.py / bot_otomoto.py: content signatures -/

/-- Python `round()` on a float: round half to even (the model's floats are
exact rationals). -/
def pyRound (q : ℚ) : ℤ :=
  if q - ⌊q⌋ < 1 / 2 then ⌊q⌋
  else if 1 / 2 < q - ⌊q⌋ then ⌊q⌋ + 1
  else if ⌊q⌋ % 2 = 0 then ⌊q⌋ else ⌊q⌋ + 1

/-- Python `int()` on a float: truncate toward zero. -/
def pyTrunc (q : ℚ) : ℤ := if 0 ≤ q then ⌊q⌋ else ⌈q⌉

/-- `bot_olx.make_signature`: strip+lower title and location, price as
`str(int(round(price)))` or `""` when `None`, join with `"|"`, then
`sha_sig`. -/
def make_signature (title : List Char) (price_pln : Option ℚ)
    (location canonical_url : List Char) : List Char :=
  let t := pyLower (pyStrip title)
  let loc := pyLower (pyStrip location)
  let price := match price_pln with
    | none => []
    | some p => toL (toString (pyRound p))
  sha_sig (t ++ '|' :: (price ++ '|' :: (loc ++ '|' :: canonical_url)))

/-- A `bot_otomoto.Offer` as far as its signature and dedup are concerned. -/
structure OfferOto where
  title : List Char
  price_pln : Option ℚ
  location : List Char
  canonical_url : List Char

/-- `bot_otomoto.make_signature`: join the raw fields with `"|"` (price as
`int(price)` when truthy, else `""` — note `0.0` is falsy), lowercase the
joined string, then `sha_sig`.  No `strip()` and truncation instead of
rounding, unlike the OLX variant. -/
def make_signature_oto (o : OfferOto) : List Char :=
  let price := match o.price_pln with
    | none => []
    | some p => if p = 0 then [] else toL (toString (pyTrunc p))
  sha_sig (pyLower (o.title ++ '|' :: (price ++ '|' :: (o.location ++ '|' :: o.canonical_url))))

/-! ### bot_otomoto.py: the main dedup/send loop, one offer -/

/-- One iteration of `bot_otomoto.main` for an offer that survived
`fetch_offer_details`: suppress iff the signature is in the single `sent`
set; otherwise send (a transport failure raises and aborts the run before
the signature is recorded) and add the signature.  The Bool of the result
is whether the offer was sent. -/
def processOto (sent : List (List Char)) (o : OfferOto) (deliverOk : Bool) :
    Except Unit (List (List Char) × Bool) :=
  if sent.contains (make_signature_oto o) then Except.ok (sent, false)
  else if deliverOk then Except.ok (make_signature_oto o :: sent, true)
  else Except.error ()

/-! ### bot_olx.py: blacklist matching with negation removal.

`is_blacklisted` applies two case-insensitive `re.sub` passes and then
searches `BLACKLIST_RE`.  The three regexes use only literals,
alternation, `\b`, `\s+`, `\s*` and `\w*`, so they are embedded as a
deterministic matcher: a greedy munch is exact here because every
`\s+`/`\s*` is followed by a letter and every `\w*` ends an alternative.
The scanner consumes matches left to right on the original string exactly
as `re.sub` does; `prev` is the character before the current position,
which is what `\b` inspects. -/

/-- Python `\w` over the alphabet the repository exercises: ASCII
alphanumerics, underscore and Polish letters. -/
def isWordChar (c : Char) : Bool :=
  c.isAlphanum || c = '_' || (toL "ąćęłńóśźżĄĆĘŁŃÓŚŹŻ").contains c

/-- Python `\s` (ASCII part). -/
def isSpaceChar (c : Char) : Bool := isPySpace c

/-- Case-insensitive literal match (`re.IGNORECASE`): the pattern is given
lowercased; consume it from the front of `l`, returning the rest. -/
def litCI : List Char → List Char → Option (List Char)
  | [], l => some l
  | _ :: _, [] => none
  | p :: ps, c :: cs => if lowerPL c = p then litCI ps cs else none

/-- `\b` before a word character: the previous character (`none` at the
start of the string) must not be a word character. -/
def wordBoundaryBefore : Option Char → Bool
  | none => true
  | some c => !isWordChar c

/-- `\b` after a word character: the rest of the string must not start
with a word character. -/
def wordBoundaryAfter : List Char → Bool
  | [] => true
  | c :: _ => !isWordChar c

/-- Match `NEGATION_CLEAN_RE = \b(bez|brak)\s+(rdz\w*|korozj\w*|uszkodz\w*|wypadk\w*)`
at the current position; on success return the consumed span and the rest. -/
def negMatch (prev : Option Char) (l : List Char) : Option (List Char × List Char) :=
  if !wordBoundaryBefore prev then none
  else
    match (litCI (toL "bez") l).orElse (fun _ => litCI (toL "brak") l) with
    | none => none
    | some r1 =>
      let sp := r1.takeWhile isSpaceChar
      let r2 := r1.dropWhile isSpaceChar
      if sp.isEmpty then none
      else
        match (litCI (toL "rdz") r2).orElse (fun _ =>
          (litCI (toL "korozj") r2).orElse (fun _ =>
            (litCI (toL "uszkodz") r2).orElse (fun _ => litCI (toL "wypadk") r2))) with
        | none => none
        | some r3 =>
          let r4 := r3.dropWhile isWordChar
          some (l.take (l.length - r4.length), r4)

/-- Match `\bbezwypadk\w*` at the current position. -/
def bwMatch (prev : Option Char) (l : List Char) : Option (List Char × List Char) :=
  if !wordBoundaryBefore prev then none
  else
    match litCI (toL "bezwypadk") l with
    | none => none
    | some r1 =>
      let r2 := r1.dropWhile isWordChar
      some (l.take (l.length - r2.length), r2)

/-- `re.sub(pattern, "", text)` for a matcher `m`: scan left to right,
deleting each non-overlapping match.  Fuel-driven for kernel evaluation;
one unit per position suffices because every match consumes at least one
character. -/
def subScanAux (m : Option Char → List Char → Option (List Char × List Char)) :
    Nat → Option Char → List Char → List Char
  | 0, _, l => l
  | _ + 1, _, [] => []
  | fuel + 1, prev, c :: cs =>
    match m prev (c :: cs) with
    | some (matched, rest) => subScanAux m fuel matched.getLast? rest
    | none => c :: subScanAux m fuel (some c) cs

/-- `NEGATION_CLEAN_RE.sub("", text)`. -/
def subNeg (t : List Char) : List Char := subScanAux negMatch t.length none t

/-- `re.sub(r"\bbezwypadk\w*", "", t)`. -/
def subBw (t : List Char) : List Char := subScanAux bwMatch t.length none t

/-- Match one literal word of a `BLACKLIST_RE` alternative, preceded by the
already-checked boundary, followed (greedily) by `\s*` and the remaining
words, with `\b` at the very end. -/
def phraseHit : List (List Char) → List Char → Bool
  | [], l => wordBoundaryAfter l
  | w :: ws, l =>
    match litCI w l with
    | none => false
    | some r => phraseHit ws (if ws.isEmpty then r else r.dropWhile isSpaceChar)

/-- Match a stem alternative `\bSTEM\w*` (the trailing `\w*` always
succeeds, so only the stem literal matters). -/
def stemHit (w l : List Char) : Bool := (litCI w l).isSome

/-- `wymaga\s*napraw\w*\b`: literal, gap, stem (`\w*\b` always succeeds). -/
def wymagaHit (l : List Char) : Bool :=
  match litCI (toL "wymaga") l with
  | none => false
  | some r => (litCI (toL "napraw") (r.dropWhile isSpaceChar)).isSome

/-- Does some alternative of `BLACKLIST_RE` match at this position?
Every alternative begins with `\b` and a literal. -/
def blMatchAt (prev : Option Char) (l : List Char) : Bool :=
  wordBoundaryBefore prev &&
    (stemHit (toL "uszkodz") l || stemHit (toL "rozbit") l || stemHit (toL "wypadk") l
      || phraseHit [toL "po", toL "wypadku"] l
      || phraseHit [toL "po", toL "kolizji"] l
      || phraseHit [toL "na", toL "części"] l
      || phraseHit [toL "dawca"] l
      || stemHit (toL "niesprawn") l
      || phraseHit [toL "do", toL "remontu"] l
      || phraseHit [toL "do", toL "naprawy"] l
      || wymagaHit l
      || phraseHit [toL "skrzynia", toL "do", toL "remontu"] l
      || phraseHit [toL "silnik", toL "do", toL "remontu"] l
      || stemHit (toL "korozj") l || stemHit (toL "rdza") l
      || stemHit (toL "zajechan") l || stemHit (toL "katowan") l
      || stemHit (toL "torow") l || stemHit (toL "panewk") l)

/-- `BLACKLIST_RE.search`: does any position match? -/
def searchBL : Option Char → List Char → Bool
  | _, [] => false
  | prev, c :: cs => blMatchAt prev (c :: cs) || searchBL (some c) cs

/-- `bot_olx.is_blacklisted`: `if not text: return False`; remove negation
spans; remove `\bbezwypadk\w*`; search the blacklist. -/
def is_blacklisted (text : List Char) : Bool :=
  if text.isEmpty then false
  else searchBL none (subBw (subNeg text))

/-- Start positions (0-based) of `BLACKLIST_RE` matches in the raw text,
used to state claims about where risk keywords occur. -/
def blPositionsAux : Option Char → Nat → List Char → List Nat
  | _, _, [] => []
  | prev, i, c :: cs =>
    (if blMatchAt prev (c :: cs) then [i] else []) ++ blPositionsAux (some c) (i + 1) cs

/-- All start positions of blacklist matches in a text. -/
def blPositions (t : List Char) : List Nat := blPositionsAux none 0 t

/-- The `(start, length)` spans deleted by the negation pass, in scan
order. -/
def negSpansAux : Nat → Option Char → Nat → List Char → List (Nat × Nat)
  | 0, _, _, _ => []
  | _ + 1, _, _, [] => []
  | fuel + 1, prev, i, c :: cs =>
    match negMatch prev (c :: cs) with
    | some (matched, rest) =>
      (i, matched.length) :: negSpansAux fuel matched.getLast? (i + matched.length) rest
    | none => negSpansAux fuel (some c) (i + 1) cs

/-- All negation spans of a text. -/
def negSpans (t : List Char) : List (Nat × Nat) := negSpansAux t.length none 0 t

/-! ## Theorems -/

set_option maxRecDepth 1000000

/-- Bridge between the executable `List.contains` and membership. -/
theorem contains_mem_iff {α : Type} [BEq α] [LawfulBEq α] {l : List α} {a : α} :
    l.contains a = true ↔ a ∈ l := by
  simp [List.contains, List.elem_iff]

/-- C1: `is_already_sent` has union semantics — it is true iff at least one
of the four identity keys (the numeric id when present, the canonical URL,
the URL path signature, the content signature) is a member of its set; and
after `mark_as_sent` with a listing's keys, any later listing sharing even
one of those keys (the other three arbitrary) is reported as already
sent. -/
theorem dedup_union_semantics :
    ∀ (store : SentStore) (numeric_id : Option String) (canonical_url url_sig sig : String),
    numeric_id ≠ some "" →
    ((is_already_sent store numeric_id canonical_url url_sig sig = true ↔
        (∃ i, numeric_id = some i ∧ i ∈ store.ids) ∨ canonical_url ∈ store.urls ∨
          url_sig ∈ store.url_sigs ∨ sig ∈ store.sigs) ∧
      ∀ (nid' : Option String) (cu' us' sg' : String), nid' ≠ some "" →
        ((nid' = numeric_id ∧ numeric_id ≠ none) ∨ cu' = canonical_url ∨
          us' = url_sig ∨ sg' = sig) →
        is_already_sent (mark_as_sent store numeric_id canonical_url url_sig sig)
          nid' cu' us' sg' = true) := by
  intro store nid cu us sg hnid
  constructor
  · cases nid with
    | none => simp [is_already_sent, contains_mem_iff, or_assoc]
    | some i =>
      have hi : ¬(i = "") := fun h => hnid (by simp [h])
      simp [is_already_sent, contains_mem_iff, hi, or_assoc]
  · intro nid' cu' us' sg' hnid' hshare
    rcases hshare with ⟨hid, hne⟩ | hcu | hus | hsg
    · cases nid with
      | none => exact absurd rfl hne
      | some i =>
        have hi : ¬(i = "") := fun h => hnid (by simp [h])
        subst hid
        simp [is_already_sent, mark_as_sent, contains_mem_iff, hi]
    · subst hcu
      cases nid' with
      | none => simp [is_already_sent, mark_as_sent, contains_mem_iff]
      | some j => simp [is_already_sent, mark_as_sent, contains_mem_iff]
    · subst hus
      cases nid' with
      | none => simp [is_already_sent, mark_as_sent, contains_mem_iff]
      | some j => simp [is_already_sent, mark_as_sent, contains_mem_iff]
    · subst hsg
      cases nid' with
      | none => simp [is_already_sent, mark_as_sent, contains_mem_iff]
      | some j => simp [is_already_sent, mark_as_sent, contains_mem_iff]

/-- C1 witness: a concrete instantiation of `dedup_union_semantics`. -/
theorem dedup_union_semantics_witness :
    (some "123" : Option String) ≠ some "" ∧
    (is_already_sent ⟨["123"], [], [], []⟩ (some "123") "u" "p" "s" = true ↔
        (∃ i, (some "123" : Option String) = some i ∧ i ∈ ["123"]) ∨ "u" ∈ ([] : List String) ∨
          "p" ∈ ([] : List String) ∨ "s" ∈ ([] : List String)) := by
  refine ⟨by decide, ?_⟩
  exact (dedup_union_semantics ⟨["123"], [], [], []⟩ (some "123") "u" "p" "s" (by decide)).1

/-- C2: in `agent.olx_rss` the uid of a listing is inserted into the `seen`
set *before* `safe_send` runs, and `safe_send` swallows transport failures,
so a failed delivery still leaves the listing marked: from an empty store,
processing a link whose delivery fails yields a store containing the
listing's key together with `delivered = false`. -/
theorem agent_marks_before_send :
    stepAgentOlx [] "https://www.olx.pl/d/oferta/nissan-350z-abc" false
      = ([hash_id "https://www.olx.pl/d/oferta/nissan-350z-abc"], false) ∧
    [hash_id "https://www.olx.pl/d/oferta/nissan-350z-abc"] ≠ ([] : List String) := by
  exact ⟨rfl, by simp⟩

/-- C5: the risk check runs first — whenever the title contains a bad word,
`ocena` returns the RISK verdict regardless of the price (present, absent,
or a bargain). -/
theorem risk_overrides_price :
    ∀ (cena_eur : Option ℚ) (title : List Char),
    is_bad title = true → ocena cena_eur title = "⚠️ RYZYKO" := by
  intro c t h
  simp [ocena, h]

/-- C5 witness: a bargain-priced offer with a risk keyword still gets RISK. -/
theorem risk_overrides_price_witness :
    is_bad (toL "nissan 350z drift") = true ∧
    ocena (some 9000) (toL "nissan 350z drift") = "⚠️ RYZYKO" :=
  ⟨by decide, risk_overrides_price (some 9000) (toL "nissan 350z drift") (by decide)⟩

/-- C6: for a non-risky title the evaluator is total with mutually
exclusive price branches: absent price gives UNKNOWN, `p ≤ 9900` (90% of
the 11000 ceiling, boundary included) gives BARGAIN, `9900 < p ≤ 11000`
(ceiling included) gives REVIEW, and `p > 11000` gives OVER_BUDGET. -/
theorem evaluator_boundaries :
    ∀ title : List Char, is_bad title = false →
    ocena none title = "❓ NIEZNANA" ∧
    ∀ p : ℚ,
      (ocena (some p) title = "✅ OKAZJA" ↔ p ≤ 9900) ∧
      (ocena (some p) title = "ℹ️ DO SPRAWDZENIA" ↔ 9900 < p ∧ p ≤ 11000) ∧
      (ocena (some p) title = "❌ POZA BUDŻETEM" ↔ 11000 < p) := by
  intro t h
  have e : ∀ p : ℚ, ocena (some p) t =
      if p ≤ 9900 then "✅ OKAZJA"
      else if p ≤ 11000 then "ℹ️ DO SPRAWDZENIA" else "❌ POZA BUDŻETEM" := by
    intro p
    have h910 : MAX_EUR * (9 / 10) = (9900 : ℚ) := by norm_num [MAX_EUR]
    have hM : MAX_EUR = (11000 : ℚ) := rfl
    simp only [ocena, h, Bool.false_eq_true, if_false]
    rw [h910, hM]
  refine ⟨by simp [ocena, h], ?_⟩
  intro p
  rw [e p]
  by_cases h1 : p ≤ 9900
  · rw [if_pos h1]
    refine ⟨⟨fun _ => h1, fun _ => rfl⟩, ?_, ?_⟩
    · constructor
      · intro hs; exact absurd hs (by decide)
      · rintro ⟨hlt, _⟩; exact absurd h1 (not_le.mpr hlt)
    · constructor
      · intro hs; exact absurd hs (by decide)
      · intro hg; exact absurd h1 (not_le.mpr (lt_trans (by norm_num) hg))
  · by_cases h2 : p ≤ 11000
    · rw [if_neg h1, if_pos h2]
      refine ⟨?_, ?_, ?_⟩
      · constructor
        · intro hs; exact absurd hs (by decide)
        · intro hle; exact absurd hle h1
      · exact ⟨fun _ => ⟨not_le.mp h1, h2⟩, fun _ => rfl⟩
      · constructor
        · intro hs; exact absurd hs (by decide)
        · intro hg; exact absurd h2 (not_le.mpr hg)
    · rw [if_neg h1, if_neg h2]
      refine ⟨?_, ?_, ?_⟩
      · constructor
        · intro hs; exact absurd hs (by decide)
        · intro hle; exact absurd (hle.trans (by norm_num)) h2
      · constructor
        · intro hs; exact absurd hs (by decide)
        · rintro ⟨_, hle⟩; exact absurd hle h2
      · exact ⟨fun _ => not_le.mp h2, fun _ => rfl⟩

/-- C6 witness: the three boundary prices on a clean title. -/
theorem evaluator_boundaries_witness :
    is_bad (toL "nissan 350z idealny") = false ∧
    ocena none (toL "nissan 350z idealny") = "❓ NIEZNANA" ∧
    ocena (some 9900) (toL "nissan 350z idealny") = "✅ OKAZJA" ∧
    ocena (some 11000) (toL "nissan 350z idealny") = "ℹ️ DO SPRAWDZENIA" ∧
    ocena (some 11001) (toL "nissan 350z idealny") = "❌ POZA BUDŻETEM" := by
  have hb : is_bad (toL "nissan 350z idealny") = false := by decide
  have h := evaluator_boundaries (toL "nissan 350z idealny") hb
  exact ⟨hb, h.1, ((h.2 9900).1).mpr (by norm_num),
    ((h.2 11000).2.1).mpr (by norm_num), ((h.2 11001).2.2).mpr (by norm_num)⟩


/-- Every character surviving the `to_number_pl` pipeline is a digit or a
dot (the final `re.sub` keeps only `[0-9.]`). -/
theorem mem_sanitized_digit_or_dot {l : List Char} {c : Char} (hc : c ∈ sanitized l) :
    (c.isDigit || c == '.') = true := by
  unfold sanitized at hc
  exact (List.mem_filter.mp hc).2

/-- Whatever `pyFloat` returns is nonnegative. -/
theorem pyFloat_nonneg {l : List Char} {q : ℚ} (h : pyFloat l = some q) : 0 ≤ q := by
  simp only [pyFloat] at h
  split_ifs at h
  all_goals
    first
      | exact Option.noConfusion h
      | (rw [← Option.some.inj h]; positivity)

/-- C9: `to_number_pl` is total (the embedding returns `Option` and every
Python exception path is a `none`); it returns `none` whenever no digit
survives the stripping pipeline, and any number it does return is
nonnegative. -/
theorem parser_totality :
    ∀ l : List Char,
      ((sanitized l).all (fun c => !c.isDigit) = true → to_number_pl l = none) ∧
      (∀ q : ℚ, to_number_pl l = some q → 0 ≤ q) := by
  intro l
  constructor
  · intro hall
    by_cases hl : l.isEmpty
    · unfold to_number_pl; rw [if_pos hl]
    · by_cases hs : (sanitized l).isEmpty
      · unfold to_number_pl; rw [if_neg hl, if_pos hs]
      · have hdot : ∀ c ∈ sanitized l, c = '.' := by
          intro c hc
          have h1 := mem_sanitized_digit_or_dot hc
          have h2 := (List.all_eq_true.mp hall) c hc
          rcases Bool.or_eq_true_iff.mp h1 with hd | he
          · rw [hd] at h2; exact absurd h2 (by decide)
          · exact eq_of_beq he
        have hpf : pyFloat (sanitized l) = none := by
          rcases he : sanitized l with _ | ⟨c, rest⟩
          · rw [he] at hs; simp at hs
          · have hc : c = '.' := hdot c (by rw [he]; exact List.mem_cons_self c rest)
            rcases rest with _ | ⟨c2, rest2⟩
            · subst hc; decide
            · have hc2 : c2 = '.' :=
                hdot c2 (by rw [he]; exact List.mem_cons_of_mem _ (List.mem_cons_self c2 rest2))
              subst hc; subst hc2
              have hcount : 2 ≤ List.count '.' ('.' :: '.' :: rest2) := by
                simp [List.count_cons]
              unfold pyFloat
              rw [if_pos hcount]
        unfold to_number_pl
        rw [if_neg hl, if_neg hs, hpf]
  · intro q hq
    unfold to_number_pl at hq
    split_ifs at hq
    all_goals
      first
        | exact Option.noConfusion hq
        | exact pyFloat_nonneg hq

/-- C9 witness: a pathological input (currency tokens and separators, no
digits) degrades to `none`; a parsed price is nonnegative. -/
theorem parser_totality_witness :
    ((sanitized (toL "zł , . zł")).all (fun c => !c.isDigit) = true ∧
      to_number_pl (toL "zł , . zł") = none) ∧
    (to_number_pl (toL "5 zł") = some 5 ∧ (0 : ℚ) ≤ 5) := by
  have hq : to_number_pl (toL "5 zł") = some 5 := by
    have h1 : to_number_pl (toL "5 zł") = pyFloat ['5'] := by
      unfold to_number_pl
      rw [show sanitized (toL "5 zł") = ['5'] from by decide]
      rfl
    have h2 : pyFloat ['5'] =
        some ((digitsToNat ['5'] : ℚ) + (digitsToNat [] : ℚ) / (10 : ℚ) ^ (0 : ℕ)) := rfl
    rw [h1, h2, show digitsToNat ['5'] = 5 from rfl, show digitsToNat [] = 0 from rfl]
    norm_num
  refine ⟨⟨by decide, (parser_totality (toL "zł , . zł")).1 (by decide)⟩, hq, ?_⟩
  exact (parser_totality (toL "5 zł")).2 5 hq

/-- Characters of `urlBase url` survive both `takeWhile` passes. -/
theorem mem_urlBase {url : List Char} {c : Char} (hc : c ∈ urlBase url) :
    c ∈ (url.takeWhile (fun c => !(c == '#'))).takeWhile (fun c => !(c == '?')) := by
  unfold urlBase at hc
  rw [List.mem_reverse] at hc
  have := (List.dropWhile_sublist (fun c => c == '/')).subset hc
  rwa [List.mem_reverse] at this

/-- A canonicalized URL contains neither `#` nor `?`. -/
theorem canonicalize_chars {url : List Char} {c : Char} (hc : c ∈ canonicalize_url url) :
    (!(c == '#')) = true ∧ (!(c == '?')) = true := by
  have hcu : c ∈ urlBase url := by
    unfold canonicalize_url at hc
    split_ifs at hc
    · exact List.take_subset _ _ hc
    · exact hc
  have h2 := mem_urlBase hcu
  refine ⟨?_, @List.mem_takeWhile_imp Char (fun c => !(c == '?'))
    (url.takeWhile (fun c => !(c == '#'))) c h2⟩
  have h3 : c ∈ url.takeWhile (fun c => !(c == '#')) := List.takeWhile_subset _ h2
  exact @List.mem_takeWhile_imp Char (fun c => !(c == '#')) url c h3

/-- `dropWhile` is the identity when the head does not satisfy the
predicate. -/
theorem dropWhile_id_of_head {p : Char → Bool} {l : List Char}
    (h : ∀ x, l.head? = some x → p x = false) : l.dropWhile p = l := by
  cases l with
  | nil => rfl
  | cons c cs => exact List.dropWhile_cons_of_neg (by simp [h c rfl])

/-- C3 (amended): `canonicalize_url` is idempotent on every URL whose
canonical form neither ends in `/` (which one `.html`-strip can expose)
nor still ends in `".html"` (a second application would strip it again);
the raw claim fails only on such URLs. -/
theorem canonicalize_idempotent_of_clean :
    ∀ url : List Char,
      (canonicalize_url url).getLast? ≠ some '/' →
      htmlSuffix.isSuffixOf (canonicalize_url url) = false →
      canonicalize_url (canonicalize_url url) = canonicalize_url url := by
  intro url hslash hsuf
  have hbase : urlBase (canonicalize_url url) = canonicalize_url url := by
    unfold urlBase
    rw [List.takeWhile_eq_self_iff.mpr (fun c hc => (canonicalize_chars hc).1)]
    rw [List.takeWhile_eq_self_iff.mpr (fun c hc => (canonicalize_chars hc).2)]
    rw [dropWhile_id_of_head, List.reverse_reverse]
    intro x hx
    rw [List.head?_reverse] at hx
    have : x ≠ '/' := fun he => hslash (he ▸ hx)
    simpa using this
  conv_lhs => rw [canonicalize_url]
  rw [hbase, hsuf]
  simp

/-- C3 counterexample: on a URL ending in a doubled `".html.html"` the
canonicalization is not idempotent — the first pass strips one copy, the
second pass strips another. -/
theorem canonicalize_not_idempotent :
    canonicalize_url (canonicalize_url (toL "https://a.pl/x.html.html")) ≠
      canonicalize_url (toL "https://a.pl/x.html.html") := by decide

/-- C3 witness: a clean OLX offer URL with query and fragment noise. -/
theorem canonicalize_idempotent_witness :
    (canonicalize_url (toL "https://www.olx.pl/d/oferta/nissan.html?x=1#top")).getLast? ≠ some '/' ∧
    htmlSuffix.isSuffixOf (canonicalize_url (toL "https://www.olx.pl/d/oferta/nissan.html?x=1#top")) = false ∧
    canonicalize_url (canonicalize_url (toL "https://www.olx.pl/d/oferta/nissan.html?x=1#top")) =
      canonicalize_url (toL "https://www.olx.pl/d/oferta/nissan.html?x=1#top") :=
  ⟨by decide, by decide,
    canonicalize_idempotent_of_clean (toL "https://www.olx.pl/d/oferta/nissan.html?x=1#top")
      (by decide) (by decide)⟩

/-- A digit is not a space, NBSP, comma or dot. -/
theorem isDigit_ne {c : Char} (h : c.isDigit = true) :
    (c == ' ') = false ∧ (c == nbspChar) = false ∧ (c == ',') = false ∧ (c == '.') = false := by
  refine ⟨?_, ?_, ?_, ?_⟩ <;>
    · rw [beq_eq_false_iff_ne]
      intro he
      subst he
      exact absurd h (by decide)

/-- Dropping a prefix of characters that a filter discards anyway does not
change the filter's result. -/
theorem filter_dropWhile_of_imp {p q : Char → Bool} (l : List Char)
    (h : ∀ c, q c = true → p c = false) :
    (l.dropWhile q).filter p = l.filter p := by
  induction l with
  | nil => rfl
  | cons c cs ih =>
    by_cases hq : q c = true
    · rw [List.dropWhile_cons_of_pos hq, ih, List.filter_cons, h c hq]
      simp
    · rw [List.dropWhile_cons_of_neg hq]

/-- `strip()` commutes away under a filter that discards whitespace. -/
theorem filter_pyStrip_of_imp {p : Char → Bool} (l : List Char)
    (h : ∀ c, isPySpace c = true → p c = false) :
    (pyStrip l).filter p = l.filter p := by
  unfold pyStrip
  rw [List.filter_reverse, filter_dropWhile_of_imp _ h, List.filter_reverse,
    List.reverse_reverse, filter_dropWhile_of_imp _ h]

/-- The whole `to_number_pl` pipeline keeps exactly the digits and commas of
its input, turning each comma into a dot: everything else (spaces anywhere,
dots, currency letters) is discarded along the way. -/
theorem sanitized_eq (l : List Char) :
    sanitized l = (l.filter (fun c => c.isDigit || c == ',')).map
      (fun c => if c == ',' then '.' else c) := by
  unfold sanitized
  rw [List.filter_map, List.filter_filter, List.filter_filter, List.filter_filter,
    filter_pyStrip_of_imp]
  · congr 1
    apply List.filter_congr
    intro x _
    by_cases hcm : x = ','
    · subst hcm; rfl
    · by_cases hcd : x = '.'
      · subst hcd; rfl
      · by_cases hdg : x.isDigit = true
        · have hne := isDigit_ne hdg
          simp [Function.comp, hdg, hne.1, hne.2.1, hne.2.2.1, hne.2.2.2]
        · simp [Function.comp, hdg, beq_eq_false_iff_ne.mpr hcm, beq_eq_false_iff_ne.mpr hcd]
  · intro c hc
    simp only [isPySpace, Bool.or_eq_true, decide_eq_true_eq] at hc
    rcases hc with ((((h | h) | h) | h) | h) | h <;> subst h <;> rfl

/-- Digit strings contain no dot. -/
theorem count_dot_digits {x : List Char} (h : x.all Char.isDigit = true) :
    List.count '.' x = 0 :=
  List.count_eq_zero.mpr fun hmem =>
    absurd ((List.all_eq_true.mp h) _ hmem) (by decide)

/-- The comma-to-dot map fixes digit strings. -/
theorem map_comma_digits {x : List Char} (h : x.all Char.isDigit = true) :
    x.map (fun c => if c == ',' then '.' else c) = x := by
  induction x with
  | nil => rfl
  | cons c cs ih =>
    have hc := (List.all_eq_true.mp h) c (List.mem_cons_self c cs)
    have hcs : cs.all Char.isDigit = true :=
      List.all_eq_true.mpr fun y hy => (List.all_eq_true.mp h) y (List.mem_cons_of_mem _ hy)
    have hstep : List.map (fun c => if c == ',' then '.' else c) (c :: cs)
        = (if c == ',' then '.' else c) :: List.map (fun c => if c == ',' then '.' else c) cs := rfl
    rw [hstep, ih hcs, show (if c == ',' then '.' else c) = c from by
      rw [(isDigit_ne hc).2.2.1]; rfl]

/-- C4 (amended): `to_number_pl` does not implement a "last separator wins"
rule; it always removes every `'.'` (as a thousands separator) and treats
every `','` as the decimal separator, regardless of which appears last:
(a) deleting all dots from the input never changes the result, and
(b) a digit string with one comma parses with the comma as the decimal
point. -/
theorem separator_rule :
    (∀ l : List Char, to_number_pl l = to_number_pl (l.filter (fun c => !(c == '.')))) ∧
    (∀ a b : List Char, a.all Char.isDigit = true → b.all Char.isDigit = true → a ≠ [] →
      to_number_pl (a ++ ',' :: b) =
        some ((digitsToNat a : ℚ) + (digitsToNat b : ℚ) / (10 : ℚ) ^ b.length)) := by
  constructor
  · intro l
    have hsan : sanitized (l.filter (fun c => !(c == '.'))) = sanitized l := by
      rw [sanitized_eq, sanitized_eq, List.filter_filter]
      congr 1
      apply List.filter_congr
      intro x _
      by_cases hd : x.isDigit = true
      · simp [hd, (isDigit_ne hd).2.2.2]
      · by_cases hcm : x = ','
        · subst hcm; rfl
        · simp [hd, beq_eq_false_iff_ne.mpr hcm]
    by_cases hl : l.isEmpty
    · have h0 : l = [] := by
        cases l with
        | nil => rfl
        | cons c cs => exact absurd hl (by simp)
      subst h0; rfl
    · by_cases hf : (l.filter (fun c => !(c == '.'))).isEmpty
      · have hfil : l.filter (fun c => !(c == '.')) = [] := by
          cases hfe : l.filter (fun c => !(c == '.')) with
          | nil => rfl
          | cons c cs => rw [hfe] at hf; exact absurd hf (by simp)
        have hse : sanitized l = [] := by rw [← hsan, hfil]; rfl
        unfold to_number_pl
        rw [if_neg hl, if_pos (by rw [hse]; rfl), hfil]
        rfl
      · unfold to_number_pl
        rw [if_neg hl, if_neg hf, hsan]
  · intro a b ha hb hane
    have hall : ∀ c ∈ a ++ ',' :: b, (c.isDigit || c == ',') = true := by
      intro c hc
      rcases List.mem_append.mp hc with h | h
      · simp [(List.all_eq_true.mp ha) c h]
      · rcases List.mem_cons.mp h with h' | h'
        · subst h'; rfl
        · simp [(List.all_eq_true.mp hb) c h']
    have hsan : sanitized (a ++ ',' :: b) = a ++ '.' :: b := by
      rw [sanitized_eq, List.filter_eq_self.mpr hall, List.map_append,
        map_comma_digits ha, List.map_cons, map_comma_digits hb]
      rfl
    have hne1 : (a ++ ',' :: b).isEmpty = false := by
      cases a with
      | nil => exact absurd rfl hane
      | cons c cs => rfl
    have hne2 : (sanitized (a ++ ',' :: b)).isEmpty = false := by
      rw [hsan]
      cases a with
      | nil => exact absurd rfl hane
      | cons c cs => rfl
    unfold to_number_pl
    rw [hne1, hne2]
    simp only [Bool.false_eq_true, if_false]
    rw [hsan]
    have hcnt : List.count '.' (a ++ '.' :: b) = 1 := by
      rw [List.count_append, count_dot_digits ha, List.count_cons, count_dot_digits hb]
      simp
    have hip : List.takeWhile (fun c => !(c == '.')) (a ++ '.' :: b) = a := by
      rw [List.takeWhile_append_of_pos (fun c hc => by simp [(isDigit_ne ((List.all_eq_true.mp ha) c hc)).2.2.2]),
        List.takeWhile_cons_of_neg (by simp)]
      simp
    have hfp : (List.dropWhile (fun c => !(c == '.')) (a ++ '.' :: b)).drop 1 = b := by
      rw [List.dropWhile_append_of_pos (fun c hc => by simp [(isDigit_ne ((List.all_eq_true.mp ha) c hc)).2.2.2]),
        List.dropWhile_cons_of_neg (by simp)]
      rfl
    simp only [pyFloat, hip, hfp]
    rw [if_neg (by rw [hcnt]; norm_num)]
    rw [if_neg (by simp [List.all_append, ha, hb]), if_neg (by
      cases a with
      | nil => exact absurd rfl hane
      | cons c cs => simp)]

/-- C4 counterexample: on `"1,234.56"` the `'.'` appears last, so the claim
predicts `1234.56`; the code removes the dot and uses the comma as the
decimal point, yielding `1.23456`. -/
theorem separator_rule_counterexample :
    to_number_pl (toL "1,234.56") = some (1.23456 : ℚ) ∧
    to_number_pl (toL "1,234.56") ≠ some (1234.56 : ℚ) := by
  have h1 : to_number_pl (toL "1,234.56") = pyFloat (toL "1.23456") := by
    unfold to_number_pl
    rw [show sanitized (toL "1,234.56") = toL "1.23456" from by decide]
    rfl
  have h2 : pyFloat (toL "1.23456") =
      some ((digitsToNat (toL "1") : ℚ) +
        (digitsToNat (toL "23456") : ℚ) / (10 : ℚ) ^ (5 : ℕ)) := rfl
  rw [h1, h2, show digitsToNat (toL "1") = 1 from rfl,
    show digitsToNat (toL "23456") = 23456 from rfl]
  constructor
  · norm_num
  · simp only [ne_eq, Option.some.injEq]
    norm_num

/-- C4 witness: a concrete instantiation of both parts of
`separator_rule`. -/
theorem separator_rule_witness :
    ((toL "4").all Char.isDigit = true ∧ (toL "5").all Char.isDigit = true ∧ toL "4" ≠ [] ∧
      to_number_pl (toL "4" ++ ',' :: toL "5") =
        some ((digitsToNat (toL "4") : ℚ) + (digitsToNat (toL "5") : ℚ) / (10 : ℚ) ^ (toL "5").length)) ∧
    to_number_pl (toL "1.2") = to_number_pl ((toL "1.2").filter (fun c => !(c == '.'))) :=
  ⟨⟨by decide, by decide, by decide,
      separator_rule.2 (toL "4") (toL "5") (by decide) (by decide) (by decide)⟩,
    separator_rule.1 (toL "1.2")⟩

/-- A hex digest has two characters per byte. -/
theorem hexOfBytes_length (bs : List Nat) : (hexOfBytes bs).length = 2 * bs.length := by
  induction bs with
  | nil => rfl
  | cons b t ih =>
    simp only [hexOfBytes, List.map_cons, List.join] at ih ⊢
    simp [byteHex, ih]
    omega

/-- A SHA-256 digest is 32 bytes for every message. -/
theorem sha256bytes_length (m : List Nat) : (sha256bytes m).length = 32 := by
  simp [sha256bytes, be4]

/-- `sha_sig` always returns 20 characters. -/
theorem sha_sig_length (s : List Char) : (sha_sig s).length = 20 := by
  simp [sha_sig, List.length_take, hexOfBytes_length, sha256bytes_length]

/-- C7 (amended, for the OLX variant): the content signature is a
fixed-length (20-character) digest of the normalized fields, and it is
unchanged whenever title and location agree after stripping and
lowercasing — in particular under leading/trailing whitespace or case
differences.  (The otomoto variant, which skips `strip()`, violates the
raw claim — see the counterexample.) -/
theorem signature_normalization :
    (∀ (t t' l l' : List Char) (p : Option ℚ) (u : List Char),
      pyLower (pyStrip t) = pyLower (pyStrip t') →
      pyLower (pyStrip l) = pyLower (pyStrip l') →
      make_signature t p l u = make_signature t' p l' u) ∧
    (∀ (t : List Char) (p : Option ℚ) (l u : List Char),
      (make_signature t p l u).length = 20) := by
  constructor
  · intro t t' l l' p u ht hl
    unfold make_signature
    rw [ht, hl]
  · intro t p l u
    exact sha_sig_length _

/-- C7 counterexample: the otomoto `make_signature` does not strip, so a
title differing only by a leading space produces a different content
signature, contradicting the claimed whitespace stability. -/
theorem signature_whitespace_counterexample :
    make_signature_oto ⟨toL " x", some 2000, toL "y", toL "u"⟩ ≠
      make_signature_oto ⟨toL "x", some 2000, toL "y", toL "u"⟩ := by
  decide

/-- C7 witness: whitespace and case noise in title and location leave the
OLX signature unchanged and 20 characters long. -/
theorem signature_normalization_witness :
    pyLower (pyStrip (toL "  Nissan 350Z ")) = pyLower (pyStrip (toL "nissan 350z")) ∧
    pyLower (pyStrip (toL " Warszawa")) = pyLower (pyStrip (toL "warszawa")) ∧
    make_signature (toL "  Nissan 350Z ") (some 46000) (toL " Warszawa") (toL "https://u") =
      make_signature (toL "nissan 350z") (some 46000) (toL "warszawa") (toL "https://u") ∧
    (make_signature (toL "nissan 350z") (some 46000) (toL "warszawa") (toL "https://u")).length = 20 :=
  ⟨by decide, by decide,
    signature_normalization.1 (toL "  Nissan 350Z ") (toL "nissan 350z")
      (toL " Warszawa") (toL "warszawa") (some 46000) (toL "https://u") (by decide) (by decide),
    signature_normalization.2 (toL "nissan 350z") (some 46000) (toL "warszawa") (toL "https://u")⟩

/-- C10 (amended): the otomoto bot deduplicates solely by the content
signature — an offer is suppressed iff its signature is in the single
persisted set (no id, URL or path-signature set exists to consult) — and
two observations of the same canonical URL are both sent provided their
*signatures* differ (the raw claim's "differing title or truncated price"
is not enough, because the fields are joined with `'|'` before hashing and
a `'|'` inside a field can make different field tuples produce the same
joined string). -/
theorem otomoto_signature_dedup :
    (∀ (sent : List (List Char)) (o : OfferOto) (d : Bool),
      processOto sent o d = Except.ok (sent, false) ↔ make_signature_oto o ∈ sent) ∧
    (∀ (sent : List (List Char)) (o1 o2 : OfferOto),
      make_signature_oto o1 ∉ sent → make_signature_oto o2 ∉ sent →
      make_signature_oto o2 ≠ make_signature_oto o1 →
      processOto sent o1 true = Except.ok (make_signature_oto o1 :: sent, true) ∧
      processOto (make_signature_oto o1 :: sent) o2 true =
        Except.ok (make_signature_oto o2 :: make_signature_oto o1 :: sent, true)) := by
  constructor
  · intro sent o d
    constructor
    · intro h
      by_cases hc : sent.contains (make_signature_oto o)
      · exact contains_mem_iff.mp hc
      · unfold processOto at h
        rw [if_neg hc] at h
        cases d with
        | true =>
          rw [if_pos rfl] at h
          have := Except.ok.inj h
          have h2 : (make_signature_oto o :: sent).length = sent.length :=
            congrArg List.length (congrArg Prod.fst this)
          simp at h2
        | false => exact Except.noConfusion (h.symm.trans (by rw [if_neg (by simp)]))
    · intro h
      unfold processOto
      rw [if_pos (contains_mem_iff.mpr h)]
  · intro sent o1 o2 h1 h2 hne
    have hc1 : sent.contains (make_signature_oto o1) = false := by
      rw [← Bool.not_eq_true, contains_mem_iff]; exact h1
    have hc2 : (make_signature_oto o1 :: sent).contains (make_signature_oto o2) = false := by
      rw [← Bool.not_eq_true, contains_mem_iff]
      intro hmem
      rcases List.mem_cons.mp hmem with h' | h'
      · exact hne h'
      · exact h2 h'
    constructor
    · unfold processOto
      rw [if_neg (by rw [hc1]; exact Bool.false_ne_true), if_pos rfl]
    · unfold processOto
      rw [if_neg (by rw [hc2]; exact Bool.false_ne_true), if_pos rfl]

/-- C10 counterexample: two offers with the same canonical URL and
different titles whose joined strings coincide (`"a|2000"`+price 3000
versus `"a"`+price 2000 with location `"3000|y"`), hence equal signatures:
the first is sent and the second is suppressed, refuting "both
observations are sent". -/
theorem otomoto_title_collision_counterexample :
    (OfferOto.mk (toL "a|2000") (some 3000) (toL "y") (toL "u")).canonical_url =
      (OfferOto.mk (toL "a") (some 2000) (toL "3000|y") (toL "u")).canonical_url ∧
    (OfferOto.mk (toL "a|2000") (some 3000) (toL "y") (toL "u")).title ≠
      (OfferOto.mk (toL "a") (some 2000) (toL "3000|y") (toL "u")).title ∧
    processOto [] (OfferOto.mk (toL "a|2000") (some 3000) (toL "y") (toL "u")) true =
      Except.ok ([make_signature_oto (OfferOto.mk (toL "a|2000") (some 3000) (toL "y") (toL "u"))], true) ∧
    processOto [make_signature_oto (OfferOto.mk (toL "a|2000") (some 3000) (toL "y") (toL "u"))]
        (OfferOto.mk (toL "a") (some 2000) (toL "3000|y") (toL "u")) true =
      Except.ok ([make_signature_oto (OfferOto.mk (toL "a|2000") (some 3000) (toL "y") (toL "u"))], false) := by
  have hsig : make_signature_oto (OfferOto.mk (toL "a") (some 2000) (toL "3000|y") (toL "u")) =
      make_signature_oto (OfferOto.mk (toL "a|2000") (some 3000) (toL "y") (toL "u")) := by
    unfold make_signature_oto
    exact congrArg sha_sig (by decide)
  refine ⟨rfl, by decide, rfl, ?_⟩
  unfold processOto
  rw [hsig, if_pos (by simp)]

/-- C10 witness: two offers with distinct signatures are both sent. -/
theorem otomoto_signature_dedup_witness :
    make_signature_oto (OfferOto.mk (toL "a") (some 2000) (toL "x") (toL "u")) ∉ ([] : List (List Char)) ∧
    make_signature_oto (OfferOto.mk (toL "b") (some 2000) (toL "x") (toL "u")) ∉ ([] : List (List Char)) ∧
    make_signature_oto (OfferOto.mk (toL "b") (some 2000) (toL "x") (toL "u")) ≠
      make_signature_oto (OfferOto.mk (toL "a") (some 2000) (toL "x") (toL "u")) ∧
    processOto [] (OfferOto.mk (toL "a") (some 2000) (toL "x") (toL "u")) true =
      Except.ok ([make_signature_oto (OfferOto.mk (toL "a") (some 2000) (toL "x") (toL "u"))], true) :=
  ⟨by simp, by simp, by decide,
    (otomoto_signature_dedup.2 [] (OfferOto.mk (toL "a") (some 2000) (toL "x") (toL "u"))
      (OfferOto.mk (toL "b") (some 2000) (toL "x") (toL "u"))
      (by simp) (by simp) (by decide)).1⟩

/-- A lowercase-fixed literal consumes itself from the front of a string. -/
theorem litCI_append_self (pat r : List Char) (h : ∀ c ∈ pat, lowerPL c = c) :
    litCI pat (pat ++ r) = some r := by
  induction pat with
  | nil => rfl
  | cons p ps ih =>
    simp only [List.cons_append, litCI]
    rw [h p (List.mem_cons_self p ps), if_pos rfl]
    exact ih fun c hc => h c (List.mem_cons_of_mem _ hc)

/-- `dropWhile` erases a list all of whose elements satisfy the predicate. -/
theorem dropWhile_nil_of_all {p : Char → Bool} (l : List Char)
    (h : ∀ c ∈ l, p c = true) : l.dropWhile p = [] := by
  induction l with
  | nil => rfl
  | cons c cs ih =>
    rw [List.dropWhile_cons_of_pos (h c (List.mem_cons_self c cs))]
    exact ih fun x hx => h x (List.mem_cons_of_mem _ hx)

/-- The scanner maps the empty string to the empty string whatever the fuel. -/
theorem subScanAux_nil (m : Option Char → List Char → Option (List Char × List Char))
    (fuel : Nat) (prev : Option Char) : subScanAux m fuel prev [] = [] := by
  cases fuel <;> rfl

/-- If the matcher swallows the entire remaining string, the scanner
returns the empty string. -/
theorem subScanAux_whole (m : Option Char → List Char → Option (List Char × List Char))
    (c : Char) (cs : List Char) (f : Nat) (prev : Option Char)
    (h : m prev (c :: cs) = some (c :: cs, [])) :
    subScanAux m (f + 1) prev (c :: cs) = [] := by
  simp only [subScanAux, h]
  exact subScanAux_nil m f _

/-- `NEGATION_CLEAN_RE` matches a whole negated risk phrase: a negation
word, whitespace, a negated stem and a word-character continuation. -/
theorem negMatch_full (neg stem sp w : List Char)
    (hneg : neg = toL "bez" ∨ neg = toL "brak")
    (hstem : stem = toL "rdz" ∨ stem = toL "korozj" ∨ stem = toL "uszkodz" ∨ stem = toL "wypadk")
    (hsp : sp ≠ []) (hsps : ∀ c ∈ sp, isSpaceChar c = true)
    (hw : ∀ c ∈ w, isWordChar c = true) :
    negMatch none (neg ++ (sp ++ (stem ++ w))) = some (neg ++ (sp ++ (stem ++ w)), []) := by
  have hstw : (stem ++ w).takeWhile isSpaceChar = [] := by
    rcases hstem with h | h | h | h <;> subst h <;> rfl
  have hsdw : (stem ++ w).dropWhile isSpaceChar = stem ++ w := by
    rcases hstem with h | h | h | h <;> subst h <;> rfl
  have hlit : (litCI (toL "bez") (neg ++ (sp ++ (stem ++ w)))).orElse
      (fun _ => litCI (toL "brak") (neg ++ (sp ++ (stem ++ w)))) = some (sp ++ (stem ++ w)) := by
    rcases hneg with h | h <;> subst h
    · rw [litCI_append_self _ _ (by decide)]; rfl
    · rw [show litCI (toL "bez") (toL "brak" ++ (sp ++ (stem ++ w))) = none from rfl,
        litCI_append_self _ _ (by decide)]
      rfl
  have hstemlit : (litCI (toL "rdz") (stem ++ w)).orElse (fun _ =>
      (litCI (toL "korozj") (stem ++ w)).orElse (fun _ =>
        (litCI (toL "uszkodz") (stem ++ w)).orElse (fun _ =>
          litCI (toL "wypadk") (stem ++ w)))) = some w := by
    rcases hstem with h | h | h | h <;> subst h
    · rw [litCI_append_self _ _ (by decide)]; rfl
    · rw [show litCI (toL "rdz") (toL "korozj" ++ w) = none from rfl,
        litCI_append_self _ _ (by decide)]
      rfl
    · rw [show litCI (toL "rdz") (toL "uszkodz" ++ w) = none from rfl,
        show litCI (toL "korozj") (toL "uszkodz" ++ w) = none from rfl,
        litCI_append_self _ _ (by decide)]
      rfl
    · rw [show litCI (toL "rdz") (toL "wypadk" ++ w) = none from rfl,
        show litCI (toL "korozj") (toL "wypadk" ++ w) = none from rfl,
        show litCI (toL "uszkodz") (toL "wypadk" ++ w) = none from rfl,
        litCI_append_self _ _ (by decide)]
      rfl
  have hspE : sp.isEmpty = false := by
    cases sp with
    | nil => exact absurd rfl hsp
    | cons c cs => rfl
  unfold negMatch
  rw [hlit]
  simp only [wordBoundaryBefore, Bool.not_true, Bool.false_eq_true, if_false,
    List.takeWhile_append_of_pos hsps, List.dropWhile_append_of_pos hsps, hstw, hsdw,
    List.append_nil, hstemlit, dropWhile_nil_of_all w hw]
  rw [if_neg (by rw [hspE]; exact Bool.false_ne_true)]
  rw [List.length_nil, Nat.sub_zero, List.take_length]

/-- C8 (amended): the negation pass does run before keyword matching — a
text that is exactly a negated risk phrase (`bez`/`brak`, whitespace, a
negated stem with any word-character continuation) is never flagged.  The
raw universal claim fails because deleting a negation span can splice the
surrounding words into a fresh multi-word risk pattern — see the
counterexample. -/
theorem negated_phrase_not_blacklisted :
    ∀ neg stem sp w : List Char,
      (neg = toL "bez" ∨ neg = toL "brak") →
      (stem = toL "rdz" ∨ stem = toL "korozj" ∨ stem = toL "uszkodz" ∨ stem = toL "wypadk") →
      sp ≠ [] → (∀ c ∈ sp, isSpaceChar c = true) →
      (∀ c ∈ w, isWordChar c = true) →
      is_blacklisted (neg ++ sp ++ stem ++ w) = false := by
  intro neg stem sp w hneg hstem hsp hsps hw
  rw [List.append_assoc, List.append_assoc]
  have hmatch := negMatch_full neg stem sp w hneg hstem hsp hsps hw
  have hsub : subNeg (neg ++ (sp ++ (stem ++ w))) = [] := by
    rcases hneg with h | h <;> subst h
    · exact subScanAux_whole negMatch 'b' (toL "ez" ++ (sp ++ (stem ++ w)))
        (toL "ez" ++ (sp ++ (stem ++ w))).length none hmatch
    · exact subScanAux_whole negMatch 'b' (toL "rak" ++ (sp ++ (stem ++ w)))
        (toL "rak" ++ (sp ++ (stem ++ w))).length none hmatch
  have hne : (neg ++ (sp ++ (stem ++ w))).isEmpty = false := by
    rcases hneg with h | h <;> subst h <;> rfl
  unfold is_blacklisted
  rw [hne]
  simp only [Bool.false_eq_true, if_false]
  rw [hsub]
  rfl

/-- C8 counterexample: in `"do bez uszkodzeń remontu"` the only risk
keyword occurrence of the raw text (`uszkodz…` at position 7) lies inside
the unique negation span (3..15, `"bez uszkodzeń"`), yet the classifier
flags the text: deleting the span splices `"do"` and `"remontu"` into the
risk pattern `do\s*remontu`. -/
theorem negation_splice_counterexample :
    (∀ i ∈ blPositions (toL "do bez uszkodzeń remontu"),
      ∃ sk ∈ negSpans (toL "do bez uszkodzeń remontu"), sk.1 ≤ i ∧ i < sk.1 + sk.2) ∧
    is_blacklisted (toL "do bez uszkodzeń remontu") = true := by
  constructor
  · decide
  · decide

/-- C8 witness: the phrase `"bez rdzy"` alone is not flagged. -/
theorem negated_phrase_witness :
    ([' '] : List Char) ≠ [] ∧ (∀ c ∈ ([' '] : List Char), isSpaceChar c = true) ∧
    (∀ c ∈ toL "y", isWordChar c = true) ∧
    is_blacklisted (toL "bez" ++ [' '] ++ toL "rdz" ++ toL "y") = false :=
  ⟨by decide, by decide, by decide,
    negated_phrase_not_blacklisted (toL "bez") (toL "rdz") [' '] (toL "y")
      (Or.inl rfl) (Or.inl rfl) (by decide) (by decide) (by decide)⟩
